import Mathlib

/-!
Verification of the coordinate-space transform and immediate-mode UI engine
of the DigitalFutures2021 visualizer (src/server/front/index.html, with the
historical variants in src/unnamed/part_000 and src/unnamed/part_001).

JavaScript numbers are idealized as exact rationals (ℚ); the spec states all
floating-point claims "up to epsilon", and every theorem below is exact.
Where the JS code calls `Math.sqrt` (vector magnitudes) the embedding uses ℝ
with `Real.sqrt`.  Division by zero: Lean's `/` returns 0 where JS returns
±Infinity/NaN; every place this distinction matters is called out in the
doc comment of the affected definition.
-/

namespace DF

/-- Source `lerp` (index.html line 264). -/
def lerp (a b t : ℚ) : ℚ := (1 - t) * a + t * b

/-- Source `ilerp` (index.html line 279): `(v - a) / (b - a)`. -/
def ilerp (a b v : ℚ) : ℚ := (v - a) / (b - a)

/-- Source `linMap` (index.html line 294). -/
def linMap (inStart inEnd outStart outEnd inValue : ℚ) : ℚ :=
  lerp outStart outEnd (ilerp inStart inEnd inValue)

/-- Source `clamp` (index.html line 308): `Math.min(Math.max(value, lo), hi)`. -/
def clamp (lo hi value : ℚ) : ℚ := min (max value lo) hi

/-- A 3-component vector over ℚ, component `i` at JS index `i`
(source `Vector3`, index.html line 349). -/
def Vec3 : Type := Fin 3 → ℚ

/-- Source `Vector3.create` (index.html line 396). -/
def Vector3.create (x y z : ℚ) : Vec3 := ![x, y, z]

/-- Source `Vector3.zero` (index.html line 453). -/
def Vector3.zero : Vec3 := Vector3.create 0 0 0

/-- Source `Vector3.dotProduct` (index.html line 619). -/
def Vector3.dotProduct (a b : Vec3) : ℚ :=
  a 0 * b 0 + a 1 * b 1 + a 2 * b 2

/-- A 4×4 matrix over ℚ.  The source (`Matrix4x4`, index.html line 737)
stores row `r`, column `c` at flat index `r + c*4`; here the entry is
`m r c`, so flat index `r + c*4` of the source reads `m r c`. -/
def Mat : Type := Fin 4 → Fin 4 → ℚ

/-- Source `Matrix4x4.create` / the constructor's `setValues`
(index.html lines 757–810, 842–866): row-major argument order
`m11 … m44` filling `this[r + c*4] = m(r+1)(c+1)`. -/
def Matrix4x4.create
    (m11 m12 m13 m14 m21 m22 m23 m24 m31 m32 m33 m34 m41 m42 m43 m44 : ℚ) :
    Mat :=
  ![![m11, m12, m13, m14],
    ![m21, m22, m23, m24],
    ![m31, m32, m33, m34],
    ![m41, m42, m43, m44]]

/-- Source `Matrix4x4.identity` (index.html line 883). -/
def Matrix4x4.identity : Mat :=
  Matrix4x4.create
    1 0 0 0
    0 1 0 0
    0 0 1 0
    0 0 0 1

/-- Source `Matrix4x4.multiply` (index.html line 942), as a value:
`res[i + j*4] = Σ_k a[i + k*4] * b[k + j*4]`.  (The imperative scratch-then-
copy behaviour of the source, including aliasing of `out` with `a`/`b`, is
modelled separately by `multiplyProg` below.) -/
def Matrix4x4.multiply (a b : Mat) : Mat :=
  fun i j => ∑ k : Fin 4, a i k * b k j

/-- Source `Matrix4x4.times` (index.html line 966): `multiply(this, matrix)`. -/
def Matrix4x4.times (a b : Mat) : Mat := Matrix4x4.multiply a b

/-- Source `Matrix4x4.add` (index.html line 977): elementwise sum over all
16 flat indices `i*4 + j`. -/
def Matrix4x4.add (a b : Mat) : Mat := fun r c => a r c + b r c

/-- Source `Matrix4x4.plus` (index.html line 993). -/
def Matrix4x4.plus (a b : Mat) : Mat := Matrix4x4.add a b

/-- Source `Matrix4x4.subtract` (index.html line 1004): elementwise
difference over all 16 flat indices. -/
def Matrix4x4.subtract (a b : Mat) : Mat := fun r c => a r c - b r c

/-- Source `Matrix4x4.minus` (index.html line 1020). -/
def Matrix4x4.minus (a b : Mat) : Mat := Matrix4x4.subtract a b

/-- Row index `i < 3` viewed as a row of a 4×4 matrix. -/
def r3 (i : Fin 3) : Fin 4 := Fin.castSucc i

/-- Source `Matrix4x4.multiplyVector3` (index.html line 1032):
`out[i] = m[i+0*4]*x + m[i+1*4]*y + m[i+2*4]*z + m[i+3*4]*1` for `i < 3`
(the vector is treated as homogeneous with `w = 1`). -/
def Matrix4x4.multiplyVector3 (m : Mat) (v : Vec3) : Vec3 :=
  fun i => m (r3 i) 0 * v 0 + m (r3 i) 1 * v 1 + m (r3 i) 2 * v 2 + m (r3 i) 3

/-- Source `Matrix4x4.fromXRotation` (index.html line 1065), parameterized by
the values `c = cos(radians)` and `s = sin(radians)` that the source computes
and passes to `setValues`. -/
def Matrix4x4.fromXRotation (c s : ℚ) : Mat :=
  Matrix4x4.create
    1 0 0 0
    0 c (-s) 0
    0 s c 0
    0 0 0 1

/-- Source `Matrix4x4.fromYRotation` (index.html line 1085), with
`c = cos(radians)`, `s = sin(radians)`. -/
def Matrix4x4.fromYRotation (c s : ℚ) : Mat :=
  Matrix4x4.create
    c 0 s 0
    0 1 0 0
    (-s) 0 c 0
    0 0 0 1

/-- Source `Matrix4x4.fromZRotation` (index.html line 1105), with
`c = cos(radians)`, `s = sin(radians)`. -/
def Matrix4x4.fromZRotation (c s : ℚ) : Mat :=
  Matrix4x4.create
    c (-s) 0 0
    s c 0 0
    0 0 1 0
    0 0 0 1

/-- Source `Matrix4x4.rotatedByX` (index.html line 1127):
`multiply(mat, fromXRotation(radians))`. -/
def Matrix4x4.rotatedByX (m : Mat) (c s : ℚ) : Mat :=
  Matrix4x4.multiply m (Matrix4x4.fromXRotation c s)

/-- Source `Matrix4x4.rotatedByY` (index.html line 1145). -/
def Matrix4x4.rotatedByY (m : Mat) (c s : ℚ) : Mat :=
  Matrix4x4.multiply m (Matrix4x4.fromYRotation c s)

/-- Source `Matrix4x4.rotatedByZ` (index.html line 1163). -/
def Matrix4x4.rotatedByZ (m : Mat) (c s : ℚ) : Mat :=
  Matrix4x4.multiply m (Matrix4x4.fromZRotation c s)

/-- The last row of the matrix reads `(0, 0, 0, 1)` — flat indices 3, 7, 11,
15 from the stated layout `r + c*4` (spec §3, Matrix4x4 invariant). -/
def lastRowAffine (m : Mat) : Prop :=
  m 3 0 = 0 ∧ m 3 1 = 0 ∧ m 3 2 = 0 ∧ m 3 3 = 1

/-- Source `UserInterface.isPointInRect` (index.html line 2210): strict
inequalities on all four edges. -/
def isPointInRect (point : Vec3) (x y width height : ℚ) : Prop :=
  point 0 > x ∧ point 0 < x + width ∧ point 1 > y ∧ point 1 < y + height

instance (point : Vec3) (x y width height : ℚ) :
    Decidable (isPointInRect point x y width height) := by
  unfold isPointInRect; infer_instance

/-- Source `UserInterface.slider`, value path (index.html lines 2363–2385).
The slider rectangle is `width = 25`, `height = 3`, left edge
`sliderX = x + 2 + labelDims[0]`; `labelWidth` stands for the measured label
width `labelDims[0]`, `mouse` for `space.getMousePositionUnclamped(0, …)`,
and `held0` for `space.isMouseButtonHeld(0)`.  Drawing calls are omitted;
the returned value is `clamp(lo, hi, newValue)` exactly as in the source. -/
def slider (x y lo hi curr labelWidth : ℚ) (mouse : Vec3) (held0 : Bool) : ℚ :=
  let width : ℚ := 25
  let height : ℚ := 3
  let sliderX := x + 2 + labelWidth
  let newValue :=
    if isPointInRect mouse sliderX y width height then
      if held0 then linMap sliderX (sliderX + width) lo hi (mouse 0) else curr
    else curr
  clamp lo hi newValue

end DF

namespace DF

/-- C9: for every rectangle with positive width and height and every point
whose y coordinate lies strictly between `y` and `y + height`, a point with
horizontal coordinate exactly `x` (the left edge) is not inside the
rectangle, while a point at `x + eps` for any `0 < eps < width` is inside:
`isPointInRect` uses strict inequalities on all four edges. -/
theorem isPointInRect_left_edge_strict
    (x y width height py eps : ℚ)
    (hw : 0 < width) (hh : 0 < height)
    (hy1 : y < py) (hy2 : py < y + height)
    (he1 : 0 < eps) (he2 : eps < width) :
    ¬ isPointInRect (Vector3.create x py 0) x y width height
    ∧ isPointInRect (Vector3.create (x + eps) py 0) x y width height := by
  constructor
  · intro h
    have hx : x > x := by simpa [isPointInRect, Vector3.create] using h.1
    exact absurd hx (lt_irrefl x)
  · refine ⟨?_, ?_, ?_, ?_⟩ <;> simp [Vector3.create] <;> linarith

/-- Witness for C9 at the rectangle `(0, 0, 10, 10)`, `py = 5`, `eps = 1`. -/
theorem isPointInRect_left_edge_strict_witness :
    ((0:ℚ) < 10 ∧ (0:ℚ) < 10 ∧ (0:ℚ) < 5 ∧ (5:ℚ) < 0 + 10
      ∧ (0:ℚ) < 1 ∧ (1:ℚ) < 10)
    ∧ (¬ isPointInRect (Vector3.create 0 5 0) 0 0 10 10
       ∧ isPointInRect (Vector3.create (0 + 1) 5 0) 0 0 10 10) :=
  ⟨by norm_num,
   isPointInRect_left_edge_strict 0 0 10 10 5 1 (by norm_num) (by norm_num)
     (by norm_num) (by norm_num) (by norm_num) (by norm_num)⟩

/-- C2 counterexample: with `lo = 0`, `hi = 10`, `curr = 5`, the pointer held
at a position whose unclamped x maps to `t = 1.5` past the high end of the
slider rectangle (`mouse[0] = sliderX + 1.5·25 = 39.5` for `x = 0`,
`labelWidth = 0`, so `sliderX = 2`; `mouse[1]` inside the rectangle's y
range), the slider returns `5` — the unchanged `curr` — not `10` as the
claim states: the strict rect test on the unclamped position fails, so the
drag branch never runs and the value is `clamp(0, 10, curr)`. -/
theorem slider_t15_returns_curr_not_hi :
    slider 0 0 0 10 5 0 (Vector3.create 39.5 1 0) true = 5
    ∧ slider 0 0 0 10 5 0 (Vector3.create 39.5 1 0) true ≠ 10 := by
  constructor
  · norm_num [slider, isPointInRect, Vector3.create, clamp]
  · norm_num [slider, isPointInRect, Vector3.create, clamp]

/-- C2 as amended: the slider only updates while the held pointer's
unclamped position lies strictly inside the slider rectangle.  A held
pointer past the high end (`mouse[0] ≥ sliderX + 25`, e.g. `t = 1.5`)
leaves the value at `clamp(lo, hi, curr)` (= `curr = 5` in the claim's
scenario), and in every case the returned value is clamped into
`[lo, hi]`, so the slider never returns an out-of-range value such as 15. -/
theorem slider_saturates_amended
    (x y lo hi curr labelWidth : ℚ) (mouse : Vec3) (held0 : Bool)
    (hlh : lo ≤ hi) :
    (x + 2 + labelWidth + 25 ≤ mouse 0 →
      slider x y lo hi curr labelWidth mouse held0 = clamp lo hi curr)
    ∧ lo ≤ slider x y lo hi curr labelWidth mouse held0
    ∧ slider x y lo hi curr labelWidth mouse held0 ≤ hi := by
  refine ⟨?_, ?_, ?_⟩
  · intro hpast
    have hnot : ¬ isPointInRect mouse (x + 2 + labelWidth) y 25 3 := by
      intro h
      have := h.2.1
      linarith
    simp only [slider, if_neg hnot]
  · unfold slider clamp
    exact le_min (le_max_right _ _) hlh
  · unfold slider clamp
    exact min_le_right _ _

/-- Witness for the amended C2 at `lo = 0`, `hi = 10`, `curr = 5`,
`x = labelWidth = 0` (so `sliderX = 2`), held pointer at
`mouse[0] = 39.5` (which is `t = 1.5`). -/
theorem slider_saturates_amended_witness :
    ((0:ℚ) ≤ 10 ∧ (0:ℚ) + 2 + 0 + 25 ≤ 39.5)
    ∧ slider 0 0 0 10 5 0 (Vector3.create 39.5 1 0) true = clamp 0 10 5
    ∧ (0:ℚ) ≤ slider 0 0 0 10 5 0 (Vector3.create 39.5 1 0) true
    ∧ slider 0 0 0 10 5 0 (Vector3.create 39.5 1 0) true ≤ 10 := by
  obtain ⟨h1, h2, h3⟩ :=
    slider_saturates_amended 0 0 0 10 5 0 (Vector3.create 39.5 1 0) true
      (by norm_num)
  exact ⟨by norm_num, h1 (by norm_num [Vector3.create]), h2, h3⟩

/-- Any product of two matrices whose last rows read `(0,0,0,1)` again has
last row `(0,0,0,1)`: row 3 of the product is
`Σ_k a[3 + k*4]·b[k + j*4] = b[3 + j*4]`. -/
theorem mul_lastRowAffine (a b : Mat)
    (ha : lastRowAffine a) (hb : lastRowAffine b) :
    lastRowAffine (Matrix4x4.multiply a b) := by
  obtain ⟨ha0, ha1, ha2, ha3⟩ := ha
  obtain ⟨hb0, hb1, hb2, hb3⟩ := hb
  refine ⟨?_, ?_, ?_, ?_⟩ <;>
    simp [Matrix4x4.multiply, Fin.sum_univ_four, ha0, ha1, ha2, ha3,
      hb0, hb1, hb2, hb3]

/-- C8 counterexample: `Matrix4x4.add` (hence `plus`) and
`Matrix4x4.subtract` (hence `minus`) do **not** preserve the last-row
invariant.  Both inputs `identity` have last row `(0,0,0,1)`, yet the sum
has last row `(0,0,0,2)` — entry at flat index 15 is `2` — and the
difference has last row `(0,0,0,0)`, because both operations act
elementwise on all 16 entries including the last row. -/
theorem add_subtract_break_last_row :
    lastRowAffine Matrix4x4.identity
    ∧ Matrix4x4.add Matrix4x4.identity Matrix4x4.identity 3 3 = 2
    ∧ ¬ lastRowAffine (Matrix4x4.add Matrix4x4.identity Matrix4x4.identity)
    ∧ Matrix4x4.subtract Matrix4x4.identity Matrix4x4.identity 3 3 = 0
    ∧ ¬ lastRowAffine
        (Matrix4x4.subtract Matrix4x4.identity Matrix4x4.identity) := by
  refine ⟨⟨rfl, rfl, rfl, rfl⟩, by norm_num [Matrix4x4.add, Matrix4x4.identity,
    Matrix4x4.create], ?_, by norm_num [Matrix4x4.subtract, Matrix4x4.identity,
    Matrix4x4.create], ?_⟩
  · intro h
    have h33 := h.2.2.2
    norm_num [Matrix4x4.add, Matrix4x4.identity, Matrix4x4.create] at h33
  · intro h
    have h33 := h.2.2.2
    norm_num [Matrix4x4.subtract, Matrix4x4.identity, Matrix4x4.create] at h33

/-- C8 as amended: every `Matrix4x4` value produced by `identity`, by
`create` applied to 16 entries whose last row is `(0,0,0,1)`, by the X/Y/Z
rotation constructors, by `multiply`/`times` on two matrices with affine
last row, and by `rotatedByX/Y/Z` on a matrix with affine last row, itself
has last row exactly `(0,0,0,1)` under the layout `r + c*4`.
`add`/`plus` and `subtract`/`minus` are excluded: they are elementwise over
all 16 entries and yield last rows `(0,0,0,2)` and `(0,0,0,0)` on affine
inputs (see the counterexample). -/
theorem lastRow_invariant_amended :
    lastRowAffine Matrix4x4.identity
    ∧ (∀ a b c d e f g h i j k l : ℚ,
        lastRowAffine (Matrix4x4.create a b c d e f g h i j k l 0 0 0 1))
    ∧ (∀ c s : ℚ,
        lastRowAffine (Matrix4x4.fromXRotation c s)
        ∧ lastRowAffine (Matrix4x4.fromYRotation c s)
        ∧ lastRowAffine (Matrix4x4.fromZRotation c s))
    ∧ (∀ a b : Mat, lastRowAffine a → lastRowAffine b →
        lastRowAffine (Matrix4x4.multiply a b)
        ∧ lastRowAffine (Matrix4x4.times a b))
    ∧ (∀ m : Mat, ∀ c s : ℚ, lastRowAffine m →
        lastRowAffine (Matrix4x4.rotatedByX m c s)
        ∧ lastRowAffine (Matrix4x4.rotatedByY m c s)
        ∧ lastRowAffine (Matrix4x4.rotatedByZ m c s)) := by
  refine ⟨⟨rfl, rfl, rfl, rfl⟩, ?_, ?_, ?_, ?_⟩
  · intro a b c d e f g h i j k l
    exact ⟨rfl, rfl, rfl, rfl⟩
  · intro c s
    exact ⟨⟨rfl, rfl, rfl, rfl⟩, ⟨rfl, rfl, rfl, rfl⟩, ⟨rfl, rfl, rfl, rfl⟩⟩
  · intro a b ha hb
    have hm := mul_lastRowAffine a b ha hb
    exact ⟨hm, hm⟩
  · intro m c s hm
    exact ⟨mul_lastRowAffine m _ hm ⟨rfl, rfl, rfl, rfl⟩,
      mul_lastRowAffine m _ hm ⟨rfl, rfl, rfl, rfl⟩,
      mul_lastRowAffine m _ hm ⟨rfl, rfl, rfl, rfl⟩⟩

/-- Witness for the amended C8: the product of two identity matrices (both
with affine last row) again has last row `(0,0,0,1)`. -/
theorem lastRow_invariant_amended_witness :
    (lastRowAffine Matrix4x4.identity ∧ lastRowAffine Matrix4x4.identity)
    ∧ lastRowAffine
        (Matrix4x4.multiply Matrix4x4.identity Matrix4x4.identity) :=
  ⟨⟨⟨rfl, rfl, rfl, rfl⟩, ⟨rfl, rfl, rfl, rfl⟩⟩,
   (lastRow_invariant_amended.2.2.2.1 Matrix4x4.identity Matrix4x4.identity
      ⟨rfl, rfl, rfl, rfl⟩ ⟨rfl, rfl, rfl, rfl⟩).1⟩

/-! ### Vector3.normalize (index.html lines 551–577, part_001 lines 430–455)

The source computes `Math.sqrt`, so this part of the embedding lives in ℝ.
The two cited implementations differ: the index.html variant ends with
`return out` on every path, while the part_001 variant has no `return` in
its zero-vector else-branch and therefore evaluates to `undefined` there.
They are modelled separately (`Vector3R.normalize` and
`Vector3R.normalizePart1`). -/

/-- A 3-component vector over ℝ. -/
def Vec3R : Type := Fin 3 → ℝ

/-- Source `Vector3.create` over ℝ. -/
def Vector3R.create (x y z : ℝ) : Vec3R := ![x, y, z]

/-- Source `Vector3.zero` over ℝ. -/
def Vector3R.zero : Vec3R := Vector3R.create 0 0 0

/-- Source `Vector3.magnitude` (index.html line 584):
`Math.sqrt(v[0]*v[0] + v[1]*v[1] + v[2]*v[2])`. -/
noncomputable def Vector3R.magnitude (v : Vec3R) : ℝ :=
  Real.sqrt (v 0 * v 0 + v 1 * v 1 + v 2 * v 2)

/-- Source `Vector3.scaled` (index.html line 519): `out[i] = v[i] * m`. -/
def Vector3R.scaled (v : Vec3R) (m : ℝ) : Vec3R := fun i => v i * m

/-- Source `Vector3.normalize`, the index.html variant only (lines
551–564).  The source computes `divisor = 1 / magnitude(v)` and tests
`Number.isFinite(divisor)`: for the nonnegative real magnitude `m` of a
finite vector, `1/m` is non-finite exactly when `m = 0`, so the guard is
rendered as `magnitude v = 0`, in which case the source writes the zero
vector into `out`; this variant ends with `return out` on both paths, so
the zero-vector case returns the zero vector.  (The part_001 variant,
which lacks that final return, is `Vector3R.normalizePart1` below.) -/
noncomputable def Vector3R.normalize (v : Vec3R) : Vec3R :=
  if Vector3R.magnitude v = 0 then Vector3R.zero
  else Vector3R.scaled v (1 / Vector3R.magnitude v)

/-- Source `Vector3.normalized` (index.html line 575): `normalize(this)`. -/
noncomputable def Vector3R.normalized (v : Vec3R) : Vec3R :=
  Vector3R.normalize v

/-- Source `Vector3.normalize`, the part_001 variant (lines 430–442).
Same `Number.isFinite(1/magnitude)` guard, but only the finite branch has
a `return` (`return Vector3.scaled(vector, 1/magnitude(vector), out)`);
the else-branch writes zeros into `out` and then falls off the end of the
function, so the **call evaluates to `undefined`** — modelled as `none`.
`normalized()` (part_001 line 453) forwards this return value, so
`zero.normalized()` is also `undefined` in that variant. -/
noncomputable def Vector3R.normalizePart1 (v : Vec3R) : Option Vec3R :=
  if Vector3R.magnitude v = 0 then none
  else some (Vector3R.scaled v (1 / Vector3R.magnitude v))

/-- Magnitude scales by `|c|`. -/
theorem Vector3R.magnitude_scaled (v : Vec3R) (c : ℝ) :
    Vector3R.magnitude (Vector3R.scaled v c) = |c| * Vector3R.magnitude v := by
  unfold Vector3R.magnitude Vector3R.scaled
  rw [show v 0 * c * (v 0 * c) + v 1 * c * (v 1 * c) + v 2 * c * (v 2 * c)
      = c ^ 2 * (v 0 * v 0 + v 1 * v 1 + v 2 * v 2) by ring,
    Real.sqrt_mul (sq_nonneg c), Real.sqrt_sq_eq_abs]

/-- The magnitude vanishes exactly on the zero vector. -/
theorem Vector3R.magnitude_pos (v : Vec3R) (i : Fin 3) (hi : v i ≠ 0) :
    0 < Vector3R.magnitude v := by
  apply Real.sqrt_pos.mpr
  have h0 := mul_self_nonneg (v 0)
  have h1 := mul_self_nonneg (v 1)
  have h2 := mul_self_nonneg (v 2)
  have hp : 0 < v i * v i := mul_self_pos.mpr hi
  have h012 : i = 0 ∨ i = 1 ∨ i = 2 := by
    rcases i with ⟨iv, hlt⟩
    interval_cases iv
    · exact Or.inl rfl
    · exact Or.inr (Or.inl rfl)
    · exact Or.inr (Or.inr rfl)
  rcases h012 with h | h | h <;> rw [h] at hp <;> nlinarith

/-- The magnitude of the zero vector is 0. -/
theorem Vector3R.magnitude_zero : Vector3R.magnitude Vector3R.zero = 0 := by
  unfold Vector3R.magnitude Vector3R.zero Vector3R.create
  norm_num

/-- C5 counterexample: the part_001 variant cited by the claim, applied to
the zero vector, returns `undefined` (modelled `none`) — not a vector and
in particular not the zero vector — because its zero-vector branch has no
`return` statement; `normalized()` of that variant forwards the same
`undefined`.  The index.html variant does return the zero vector there. -/
theorem normalizePart1_zero_returns_undefined :
    Vector3R.normalizePart1 Vector3R.zero = none
    ∧ Vector3R.normalize Vector3R.zero 0 = 0
    ∧ Vector3R.normalize Vector3R.zero 1 = 0
    ∧ Vector3R.normalize Vector3R.zero 2 = 0 := by
  have hm : Vector3R.magnitude Vector3R.zero = 0 := Vector3R.magnitude_zero
  refine ⟨?_, ?_, ?_, ?_⟩
  · unfold Vector3R.normalizePart1
    rw [if_pos hm]
  · unfold Vector3R.normalize
    rw [if_pos hm]
    simp [Vector3R.zero, Vector3R.create]
  · unfold Vector3R.normalize
    rw [if_pos hm]
    simp [Vector3R.zero, Vector3R.create]
  · unfold Vector3R.normalize
    rw [if_pos hm]
    simp [Vector3R.zero, Vector3R.create]

/-- C5 as amended: for the index.html `Vector3.normalize` (and its
`normalized` method) the claim holds — it always returns a vector; on the
zero vector it returns the zero vector (no NaN components, no exception —
the embedding is a total function), and on any nonzero vector the result
has magnitude 1 and points in the input's direction (a positive scalar
multiple of the input).  The part_001 variant cited by the claim instead
returns `undefined` on the zero vector (see the counterexample); on
nonzero vectors it agrees with the index.html variant. -/
theorem normalize_zero_safe (v : Vec3R) :
    ((∀ i, v i = 0) → ∀ i, Vector3R.normalize v i = 0)
    ∧ ((∃ i, v i ≠ 0) →
        Vector3R.magnitude (Vector3R.normalize v) = 1
        ∧ ∃ c : ℝ, 0 < c ∧ ∀ i, Vector3R.normalize v i = c * v i)
    ∧ ((∀ i, v i = 0) → Vector3R.normalizePart1 v = none)
    ∧ ((∃ i, v i ≠ 0) →
        Vector3R.normalizePart1 v = some (Vector3R.normalize v)) := by
  refine ⟨?_, ?_, ?_, ?_⟩
  · intro hz i
    have hm : Vector3R.magnitude v = 0 := by
      unfold Vector3R.magnitude
      rw [hz 0, hz 1, hz 2]
      simp
    unfold Vector3R.normalize
    rw [if_pos hm]
    fin_cases i <;> simp [Vector3R.zero, Vector3R.create]
  · rintro ⟨i, hi⟩
    have hm : 0 < Vector3R.magnitude v := Vector3R.magnitude_pos v i hi
    have hne : Vector3R.magnitude v ≠ 0 := ne_of_gt hm
    have hnorm : Vector3R.normalize v
        = Vector3R.scaled v (1 / Vector3R.magnitude v) := by
      unfold Vector3R.normalize
      rw [if_neg hne]
    constructor
    · rw [hnorm, Vector3R.magnitude_scaled,
        abs_of_pos (by positivity : (0:ℝ) < 1 / Vector3R.magnitude v),
        one_div, inv_mul_cancel₀ hne]
    · refine ⟨1 / Vector3R.magnitude v, by positivity, ?_⟩
      intro j
      rw [hnorm]
      unfold Vector3R.scaled
      ring
  · intro hz
    have hm : Vector3R.magnitude v = 0 := by
      unfold Vector3R.magnitude
      rw [hz 0, hz 1, hz 2]
      simp
    unfold Vector3R.normalizePart1
    rw [if_pos hm]
  · rintro ⟨i, hi⟩
    have hne : Vector3R.magnitude v ≠ 0 :=
      ne_of_gt (Vector3R.magnitude_pos v i hi)
    unfold Vector3R.normalizePart1 Vector3R.normalize
    rw [if_neg hne, if_neg hne]

/-- Witness for the amended C5 at `v = (3, 4, 0)` (nonzero) and at the
zero vector. -/
theorem normalize_zero_safe_witness :
    ((∀ i, Vector3R.zero i = 0) ∧ (∃ i, Vector3R.create 3 4 0 i ≠ 0))
    ∧ (∀ i, Vector3R.normalize Vector3R.zero i = 0)
    ∧ Vector3R.magnitude (Vector3R.normalize (Vector3R.create 3 4 0)) = 1
    ∧ (∃ c : ℝ, 0 < c
        ∧ ∀ i, Vector3R.normalize (Vector3R.create 3 4 0) i
            = c * Vector3R.create 3 4 0 i)
    ∧ Vector3R.normalizePart1 Vector3R.zero = none
    ∧ Vector3R.normalizePart1 (Vector3R.create 3 4 0)
        = some (Vector3R.normalize (Vector3R.create 3 4 0)) := by
  have hz : ∀ i, Vector3R.zero i = 0 := by
    intro i
    fin_cases i <;> simp [Vector3R.zero, Vector3R.create]
  have hnz : ∃ i, Vector3R.create 3 4 0 i ≠ 0 :=
    ⟨0, by norm_num [Vector3R.create]⟩
  obtain ⟨hz1, -, hz3, -⟩ := normalize_zero_safe Vector3R.zero
  obtain ⟨-, hn2, -, hn4⟩ := normalize_zero_safe (Vector3R.create 3 4 0)
  exact ⟨⟨hz, hnz⟩, hz1 hz, (hn2 hnz).1, (hn2 hnz).2, hz3 hz, hn4 hnz⟩

/-! ### Process-wide input state (index.html lines 1347–1394, 2094–2126)

`Space.__mouseButtonsClickedThisFrame` is a process-wide bitmask.  The
events and calls that can touch it during a frame are modelled as `FrameOp`;
the effect of each on the bitmask is read off the source:
`_onMouseClick` ORs in `1 << button` (line 1364); `_onMouseMove/Down/Up`
write only `Space.__mouseButtons` (held bitmask); UI widgets (`button`,
`highlightButton`, `circleButton`, `slider`, `checkbox`) only read the mask
through `wasMouseButtonClicked`; `View.onFrameEnd` (line 2475) and
`UserInterface.onFrameEnd` (line 2420) only call `updateViewMatrix`; the
sole clear is `Space.onFrameEnd` (line 2123), which sets the mask to 0. -/

/-- Operations that run between/within frames, as they affect the
clicked-this-frame bitmask. -/
inductive FrameOp where
  | mouseMove : FrameOp
  | mouseDown : FrameOp
  | mouseUp : FrameOp
  | click : ℕ → FrameOp
  | widgetCall : FrameOp
  | viewFrameEnd : FrameOp
  | globalFrameEnd : FrameOp
deriving DecidableEq

/-- Effect of one operation on the clicked-this-frame bitmask. -/
def applyOp (mask : ℕ) : FrameOp → ℕ
  | FrameOp.click b => mask ||| (1 <<< b)
  | FrameOp.globalFrameEnd => 0
  | _ => mask

/-- Run a sequence of operations on the bitmask. -/
def runOps (mask : ℕ) : List FrameOp → ℕ
  | [] => mask
  | op :: rest => runOps (applyOp mask op) rest

/-- Source `Space.wasMouseButtonClicked` (index.html line 2094):
`(mask & (1 << buttonIndex)) > 0`. -/
def wasMouseButtonClicked (mask buttonIndex : ℕ) : Bool :=
  decide (0 < mask &&& (1 <<< buttonIndex))

/-- `wasMouseButtonClicked` reads exactly bit `b` of the mask. -/
theorem wasMouseButtonClicked_eq_testBit (s b : ℕ) :
    wasMouseButtonClicked s b = Nat.testBit s b := by
  unfold wasMouseButtonClicked
  rw [Nat.one_shiftLeft, Nat.and_two_pow]
  cases hb : s.testBit b <;> simp [hb, Nat.pos_pow_of_pos]

/-- Every operation except `globalFrameEnd` leaves bit 0 of the mask set. -/
theorem applyOp_keeps_bit0 (s : ℕ) (op : FrameOp)
    (hop : op ≠ FrameOp.globalFrameEnd) (hs : s.testBit 0 = true) :
    (applyOp s op).testBit 0 = true := by
  cases op with
  | click b => simp only [applyOp, Nat.testBit_or, hs, Bool.true_or]
  | globalFrameEnd => exact absurd rfl hop
  | mouseMove => exact hs
  | mouseDown => exact hs
  | mouseUp => exact hs
  | widgetCall => exact hs
  | viewFrameEnd => exact hs

/-- Running a `globalFrameEnd`-free sequence leaves bit 0 set. -/
theorem runOps_keeps_bit0 (ops : List FrameOp) :
    ∀ s : ℕ, s.testBit 0 = true → FrameOp.globalFrameEnd ∉ ops →
      (runOps s ops).testBit 0 = true := by
  induction ops with
  | nil => intro s hs _; exact hs
  | cons op rest ih =>
    intro s hs hno
    have hop : op ≠ FrameOp.globalFrameEnd := fun h => hno (h ▸ List.mem_cons_self op rest)
    have hrest : FrameOp.globalFrameEnd ∉ rest := fun h => hno (List.mem_cons_of_mem op h)
    exact ih (applyOp s op) (applyOp_keeps_bit0 s op hop hs) hrest

/-- Runs concatenate. -/
theorem runOps_append (l1 l2 : List FrameOp) :
    ∀ s : ℕ, runOps s (l1 ++ l2) = runOps (runOps s l1) l2 := by
  induction l1 with
  | nil => intro s; rfl
  | cons op rest ih => intro s; exact ih (applyOp s op)

/-- C4: a click event for button 0 sets bit 0 of the clicked-this-frame
bitmask; `wasMouseButtonClicked(0)` then returns true across any sequence
of mouse moves/downs/ups, further clicks, widget calls and per-View
frame-end calls that does not contain the single global frame-end
(`Space.onFrameEnd`); after the global frame-end it returns false; and no
widget call or per-View call (nor mouse move/down/up) modifies the bitmask
at all — `Space.onFrameEnd` is its only clearing write. -/
theorem click_bitmask_lifecycle (mask : ℕ) (ops : List FrameOp)
    (hno : FrameOp.globalFrameEnd ∉ ops) :
    wasMouseButtonClicked
      (runOps (applyOp mask (FrameOp.click 0)) ops) 0 = true
    ∧ wasMouseButtonClicked
        (runOps (applyOp mask (FrameOp.click 0))
          (ops ++ [FrameOp.globalFrameEnd])) 0 = false
    ∧ (∀ s : ℕ,
        applyOp s FrameOp.widgetCall = s
        ∧ applyOp s FrameOp.viewFrameEnd = s
        ∧ applyOp s FrameOp.mouseMove = s
        ∧ applyOp s FrameOp.mouseDown = s
        ∧ applyOp s FrameOp.mouseUp = s) := by
  have hset : (applyOp mask (FrameOp.click 0)).testBit 0 = true := by
    simp [applyOp, Nat.testBit_or]
  refine ⟨?_, ?_, ?_⟩
  · rw [wasMouseButtonClicked_eq_testBit]
    exact runOps_keeps_bit0 ops _ hset hno
  · rw [runOps_append]
    simp [runOps, applyOp, wasMouseButtonClicked]
  · intro s
    exact ⟨rfl, rfl, rfl, rfl, rfl⟩

/-- Witness for C4: a click followed by a widget call and a per-View
frame-end keeps the bit set; adding the global frame-end clears it. -/
theorem click_bitmask_lifecycle_witness :
    (FrameOp.globalFrameEnd ∉ [FrameOp.widgetCall, FrameOp.viewFrameEnd])
    ∧ wasMouseButtonClicked
        (runOps (applyOp 0 (FrameOp.click 0))
          [FrameOp.widgetCall, FrameOp.viewFrameEnd]) 0 = true
    ∧ wasMouseButtonClicked
        (runOps (applyOp 0 (FrameOp.click 0))
          ([FrameOp.widgetCall, FrameOp.viewFrameEnd]
            ++ [FrameOp.globalFrameEnd])) 0 = false := by
  obtain ⟨h1, h2, _⟩ :=
    click_bitmask_lifecycle 0 [FrameOp.widgetCall, FrameOp.viewFrameEnd]
      (by decide)
  exact ⟨by decide, h1, h2⟩

/-! ### Bounds3D (index.html lines 1219–1289)

The source initializes `lo = (Infinity, Infinity, Infinity)` and
`hi = (-Infinity, -Infinity, -Infinity)`; coordinates therefore live in the
extended rationals `ERat` with `⊤ = +Infinity` and `⊥ = -Infinity`, finite
points being coerced in by `coeQ`. -/

/-- Extended rationals: ℚ with `-Infinity` (`⊥`) and `+Infinity` (`⊤`). -/
abbrev ERat := WithBot (WithTop ℚ)

/-- A finite rational as an extended rational. -/
def coeQ (q : ℚ) : ERat := ((q : WithTop ℚ) : ERat)

/-- Source `Bounds3D` (index.html line 1219): a `lo` and `hi` corner. -/
structure Bounds3D where
  lo : Fin 3 → ERat
  hi : Fin 3 → ERat

/-- A fresh `new Bounds3D()` (index.html lines 1220–1221):
`lo = (+∞,+∞,+∞)`, `hi = (−∞,−∞,−∞)` — the sentinel box containing
nothing. -/
def Bounds3D.sentinel : Bounds3D := ⟨fun _ => ⊤, fun _ => ⊥⟩

/-- One iteration of the `fromPoints` loop (index.html lines 1237–1248):
`lo[i] = min(lo[i], pt[i])`, `hi[i] = max(hi[i], pt[i])`. -/
def Bounds3D.step (b : Bounds3D) (p : Vec3) : Bounds3D :=
  ⟨fun i => min (b.lo i) (coeQ (p i)), fun i => max (b.hi i) (coeQ (p i))⟩

/-- Source `Bounds3D.fromPoints` (index.html line 1231), called with no
pre-existing `out` accumulator, so the fold starts from the fresh sentinel
box.  (`computeBoundingBox` of part_000 lines 42–57 performs the identical
accumulation, with `res[i] = [lo[i], hi[i]]`.) -/
def Bounds3D.fromPoints (pts : List Vec3) : Bounds3D :=
  pts.foldl Bounds3D.step Bounds3D.sentinel

/-- Source `Bounds3D.fromUnion` (index.html line 1261): componentwise
min of the `lo`s and max of the `hi`s. -/
def Bounds3D.fromUnion (a b : Bounds3D) : Bounds3D :=
  ⟨fun i => min (a.lo i) (b.lo i), fun i => max (a.hi i) (b.hi i)⟩

/-- Folding points into a box only lowers `lo`. -/
theorem fold_lo_le_init (pts : List Vec3) :
    ∀ (b : Bounds3D) (i : Fin 3),
      (pts.foldl Bounds3D.step b).lo i ≤ b.lo i := by
  induction pts with
  | nil => intro b i; exact le_refl _
  | cons p rest ih =>
    intro b i
    exact le_trans (ih (Bounds3D.step b p) i) (min_le_left _ _)

/-- After folding, `lo` is below every folded point. -/
theorem fold_lo_le_mem (pts : List Vec3) :
    ∀ (b : Bounds3D) (p : Vec3), p ∈ pts → ∀ i : Fin 3,
      (pts.foldl Bounds3D.step b).lo i ≤ coeQ (p i) := by
  induction pts with
  | nil => intro b p hp; cases hp
  | cons q rest ih =>
    intro b p hp i
    rcases List.mem_cons.mp hp with h | h
    · rw [h]
      exact le_trans (fold_lo_le_init rest (Bounds3D.step b q) i)
        (min_le_right _ _)
    · exact ih (Bounds3D.step b q) p h i

/-- After folding, `lo` is either untouched or attained by a point. -/
theorem fold_lo_attained (pts : List Vec3) :
    ∀ (b : Bounds3D) (i : Fin 3),
      (pts.foldl Bounds3D.step b).lo i = b.lo i
      ∨ ∃ p ∈ pts, (pts.foldl Bounds3D.step b).lo i = coeQ (p i) := by
  induction pts with
  | nil => intro b i; exact Or.inl rfl
  | cons q rest ih =>
    intro b i
    rcases ih (Bounds3D.step b q) i with h | h
    · rcases min_cases (b.lo i) (coeQ (q i)) with ⟨hmin, _⟩ | ⟨hmin, _⟩
      · exact Or.inl (h.trans hmin)
      · exact Or.inr ⟨q, List.mem_cons_self q rest, h.trans hmin⟩
    · obtain ⟨p, hp, he⟩ := h
      exact Or.inr ⟨p, List.mem_cons_of_mem q hp, he⟩

/-- Folding points into a box only raises `hi`. -/
theorem fold_hi_ge_init (pts : List Vec3) :
    ∀ (b : Bounds3D) (i : Fin 3),
      b.hi i ≤ (pts.foldl Bounds3D.step b).hi i := by
  induction pts with
  | nil => intro b i; exact le_refl _
  | cons p rest ih =>
    intro b i
    exact le_trans (le_max_left _ _) (ih (Bounds3D.step b p) i)

/-- After folding, `hi` is above every folded point. -/
theorem fold_hi_ge_mem (pts : List Vec3) :
    ∀ (b : Bounds3D) (p : Vec3), p ∈ pts → ∀ i : Fin 3,
      coeQ (p i) ≤ (pts.foldl Bounds3D.step b).hi i := by
  induction pts with
  | nil => intro b p hp; cases hp
  | cons q rest ih =>
    intro b p hp i
    rcases List.mem_cons.mp hp with h | h
    · rw [h]
      exact le_trans (le_max_right _ _) (fold_hi_ge_init rest (Bounds3D.step b q) i)
    · exact ih (Bounds3D.step b q) p h i

/-- After folding, `hi` is either untouched or attained by a point. -/
theorem fold_hi_attained (pts : List Vec3) :
    ∀ (b : Bounds3D) (i : Fin 3),
      (pts.foldl Bounds3D.step b).hi i = b.hi i
      ∨ ∃ p ∈ pts, (pts.foldl Bounds3D.step b).hi i = coeQ (p i) := by
  induction pts with
  | nil => intro b i; exact Or.inl rfl
  | cons q rest ih =>
    intro b i
    rcases ih (Bounds3D.step b q) i with h | h
    · rcases max_cases (b.hi i) (coeQ (q i)) with ⟨hmax, _⟩ | ⟨hmax, _⟩
      · exact Or.inl (h.trans hmax)
      · exact Or.inr ⟨q, List.mem_cons_self q rest, h.trans hmax⟩
    · obtain ⟨p, hp, he⟩ := h
      exact Or.inr ⟨p, List.mem_cons_of_mem q hp, he⟩

/-- A finite value is strictly below `+∞`. -/
theorem coeQ_lt_top (q : ℚ) : coeQ q < ⊤ := by
  rw [coeQ, ← WithBot.coe_top]
  exact WithBot.coe_lt_coe.mpr (WithTop.coe_lt_top q)

/-- A finite value is strictly above `-∞`. -/
theorem bot_lt_coeQ (q : ℚ) : ⊥ < coeQ q := WithBot.bot_lt_coe _

/-- C7: for a non-empty point list (and no pre-existing `out` box),
`Bounds3D.fromPoints` returns a box whose `lo[i]` is the minimum and
`hi[i]` the maximum of coordinate `i` over the input points — each is both
a bound for and attained by the inputs — hence `lo[i] ≤ hi[i]` on every
axis; the empty list returns the sentinel box
`(+∞,+∞,+∞)/(−∞,−∞,−∞)` that contains nothing. -/
theorem fromPoints_min_max (pts : List Vec3) :
    (pts ≠ [] → ∀ i : Fin 3,
      (∀ p ∈ pts, (Bounds3D.fromPoints pts).lo i ≤ coeQ (p i))
      ∧ (∃ p ∈ pts, (Bounds3D.fromPoints pts).lo i = coeQ (p i))
      ∧ (∀ p ∈ pts, coeQ (p i) ≤ (Bounds3D.fromPoints pts).hi i)
      ∧ (∃ p ∈ pts, (Bounds3D.fromPoints pts).hi i = coeQ (p i))
      ∧ (Bounds3D.fromPoints pts).lo i ≤ (Bounds3D.fromPoints pts).hi i)
    ∧ (∀ i : Fin 3, (Bounds3D.fromPoints []).lo i = ⊤
        ∧ (Bounds3D.fromPoints []).hi i = ⊥) := by
  constructor
  · intro hne i
    obtain ⟨p1, hp1⟩ := List.exists_mem_of_ne_nil pts hne
    have hlo_le : ∀ p ∈ pts, (Bounds3D.fromPoints pts).lo i ≤ coeQ (p i) :=
      fun p hp => fold_lo_le_mem pts Bounds3D.sentinel p hp i
    have hhi_ge : ∀ p ∈ pts, coeQ (p i) ≤ (Bounds3D.fromPoints pts).hi i :=
      fun p hp => fold_hi_ge_mem pts Bounds3D.sentinel p hp i
    have hlo_att : ∃ p ∈ pts, (Bounds3D.fromPoints pts).lo i = coeQ (p i) := by
      rcases fold_lo_attained pts Bounds3D.sentinel i with h | h
      · exfalso
        have hlt : (Bounds3D.fromPoints pts).lo i < ⊤ :=
          lt_of_le_of_lt (hlo_le p1 hp1) (coeQ_lt_top (p1 i))
        have h2 : (Bounds3D.fromPoints pts).lo i = ⊤ := h
        rw [h2] at hlt
        exact absurd hlt (lt_irrefl _)
      · exact h
    have hhi_att : ∃ p ∈ pts, (Bounds3D.fromPoints pts).hi i = coeQ (p i) := by
      rcases fold_hi_attained pts Bounds3D.sentinel i with h | h
      · exfalso
        have hlt : ⊥ < (Bounds3D.fromPoints pts).hi i :=
          lt_of_lt_of_le (bot_lt_coeQ (p1 i)) (hhi_ge p1 hp1)
        have h2 : (Bounds3D.fromPoints pts).hi i = ⊥ := h
        rw [h2] at hlt
        exact absurd hlt (lt_irrefl _)
      · exact h
    refine ⟨hlo_le, hlo_att, hhi_ge, hhi_att, ?_⟩
    obtain ⟨p0, hp0, he0⟩ := hlo_att
    exact he0 ▸ hhi_ge p0 hp0
  · intro i
    exact ⟨rfl, rfl⟩

/-- Witness for C7 at the two-point list `[(1,2,3), (0,5,-1)]`. -/
theorem fromPoints_min_max_witness :
    ([Vector3.create 1 2 3, Vector3.create 0 5 (-1)] ≠ [])
    ∧ (∀ i : Fin 3,
        (∀ p ∈ [Vector3.create 1 2 3, Vector3.create 0 5 (-1)],
          (Bounds3D.fromPoints
            [Vector3.create 1 2 3, Vector3.create 0 5 (-1)]).lo i ≤ coeQ (p i))
        ∧ (∃ p ∈ [Vector3.create 1 2 3, Vector3.create 0 5 (-1)],
            (Bounds3D.fromPoints
              [Vector3.create 1 2 3, Vector3.create 0 5 (-1)]).lo i = coeQ (p i))
        ∧ (∀ p ∈ [Vector3.create 1 2 3, Vector3.create 0 5 (-1)],
            coeQ (p i) ≤ (Bounds3D.fromPoints
              [Vector3.create 1 2 3, Vector3.create 0 5 (-1)]).hi i)
        ∧ (∃ p ∈ [Vector3.create 1 2 3, Vector3.create 0 5 (-1)],
            (Bounds3D.fromPoints
              [Vector3.create 1 2 3, Vector3.create 0 5 (-1)]).hi i = coeQ (p i))
        ∧ (Bounds3D.fromPoints
            [Vector3.create 1 2 3, Vector3.create 0 5 (-1)]).lo i
          ≤ (Bounds3D.fromPoints
              [Vector3.create 1 2 3, Vector3.create 0 5 (-1)]).hi i) :=
  ⟨List.cons_ne_nil _ _,
   (fromPoints_min_max [Vector3.create 1 2 3, Vector3.create 0 5 (-1)]).1
     (List.cons_ne_nil _ _)⟩

/-! ### mapPointsToNormalizedCoords (index.html lines 2497–2516,
part_000 lines 108–125) -/

/-- JS `Math.abs` on an extended rational: `|±Infinity| = +Infinity`,
finite values take the usual absolute value. -/
def eabs (x : ERat) : ERat :=
  WithBot.recBotCoe ⊤ (fun y => WithTop.recTopCoe ⊤ (fun q => coeQ |q|) y) x

/-- JS `1 / x` for the scale-factor computation: `1 / (+Infinity) = 0` and
finite `q ≠ 0` gives `1/q`.  Divergence from JS at `q = 0`: JS produces
`Infinity` (and then `0 * Infinity = NaN` when scaling), while ℚ division
by zero yields 0 — under the theorems' hypothesis that the maximum bound is
nonzero the model and JS agree exactly, and at `q = 0` both semantics
violate the claimed "maximum absolute coordinate = 1" postcondition. -/
def invE (x : ERat) : ℚ :=
  WithBot.recBotCoe 0 (fun y => WithTop.recTopCoe 0 (fun q => 1 / q) y) x

/-- The `maxBoundValue` loop of `mapPointsToNormalizedCoords` (index.html
lines 2502–2506): starting from `-Infinity`, fold in `abs(lo[i])` and
`abs(hi[i])` for each axis.  (part_000 lines 111–115 compute the same value
from `bounds[i][0]`/`bounds[i][1]`.) -/
def maxBoundValue (b : Bounds3D) : ERat :=
  (List.finRange 3).foldl
    (fun acc i => max (max acc (eabs (b.lo i))) (eabs (b.hi i))) ⊥

/-- Source `mapPointsToNormalizedCoords` (index.html line 2497), called
without the optional `boundingBox` argument, so the box is computed from
the points themselves; each output point is
`(pt[0]·s, pt[1]·s, pt[2]·s)` with `s = 1 / maxBoundValue`. -/
def mapPointsToNormalizedCoords (pts : List Vec3) : List Vec3 :=
  let boundingBox := Bounds3D.fromPoints pts
  let scaleFactor := invE (maxBoundValue boundingBox)
  pts.map (fun p => fun i => p i * scaleFactor)

/-- The historical variant `mapPointsToNormalizedCoords` of part_000
(lines 108–125): same bounding box and scale factor, but the output point
is `[pt[0]*scaleFactor, pt[1]*scaleFactor, pt[1]*scaleFactor]` — the third
component reads `pt[1]`, not `pt[2]`. -/
def mapPointsToNormalizedCoordsV0 (pts : List Vec3) : List Vec3 :=
  let bounds := Bounds3D.fromPoints pts
  let scaleFactor := invE (maxBoundValue bounds)
  pts.map (fun p => ![p 0 * scaleFactor, p 1 * scaleFactor, p 1 * scaleFactor])

/-- `invE` on a finite value is plain reciprocal. -/
theorem invE_coeQ (q : ℚ) : invE (coeQ q) = 1/q := rfl

/-- `eabs` on a finite value is plain absolute value. -/
theorem eabs_coeQ (q : ℚ) : eabs (coeQ q) = coeQ |q| := rfl

/-- `coeQ` preserves and reflects order. -/
theorem coeQ_le_coeQ (q r : ℚ) : coeQ q ≤ coeQ r ↔ q ≤ r := by
  rw [coeQ, coeQ, WithBot.coe_le_coe, WithTop.coe_le_coe]

/-- `coeQ` commutes with `max`. -/
theorem coeQ_max (q r : ℚ) : max (coeQ q) (coeQ r) = coeQ (max q r) := by
  rw [coeQ, coeQ, coeQ, WithTop.coe_max, WithBot.coe_max]

section foldmax

variable (u w : Fin 3 → ERat)

/-- The max-fold only grows its accumulator. -/
theorem foldmax_ge_init (l : List (Fin 3)) :
    ∀ acc : ERat, acc ≤ l.foldl (fun a i => max (max a (u i)) (w i)) acc := by
  induction l with
  | nil => intro acc; exact le_refl _
  | cons j rest ih =>
    intro acc
    exact le_trans (le_trans (le_max_left _ _) (le_max_left _ _)) (ih _)

/-- The max-fold dominates every folded-in value. -/
theorem foldmax_ge_mem (l : List (Fin 3)) :
    ∀ acc : ERat, ∀ i ∈ l,
      u i ≤ l.foldl (fun a i => max (max a (u i)) (w i)) acc
      ∧ w i ≤ l.foldl (fun a i => max (max a (u i)) (w i)) acc := by
  induction l with
  | nil => intro acc i hi; cases hi
  | cons j rest ih =>
    intro acc i hi
    rcases List.mem_cons.mp hi with h | h
    · rw [h]
      constructor
      · exact le_trans (le_trans (le_max_right _ _) (le_max_left _ _))
          (foldmax_ge_init u w rest _)
      · exact le_trans (le_max_right _ _) (foldmax_ge_init u w rest _)
    · exact ih _ i h

/-- The max-fold equals its initial accumulator or one of the folded
values. -/
theorem foldmax_attained (l : List (Fin 3)) :
    ∀ acc : ERat,
      l.foldl (fun a i => max (max a (u i)) (w i)) acc = acc
      ∨ ∃ i ∈ l, l.foldl (fun a i => max (max a (u i)) (w i)) acc = u i
          ∨ l.foldl (fun a i => max (max a (u i)) (w i)) acc = w i := by
  induction l with
  | nil => intro acc; exact Or.inl rfl
  | cons j rest ih =>
    intro acc
    rcases ih (max (max acc (u j)) (w j)) with h | h
    · rcases max_cases (max acc (u j)) (w j) with ⟨hm1, _⟩ | ⟨hm1, _⟩
      · rcases max_cases acc (u j) with ⟨hm2, _⟩ | ⟨hm2, _⟩
        · exact Or.inl (h.trans (hm1.trans hm2))
        · exact Or.inr ⟨j, List.mem_cons_self j rest,
            Or.inl (h.trans (hm1.trans hm2))⟩
      · exact Or.inr ⟨j, List.mem_cons_self j rest, Or.inr (h.trans hm1)⟩
    · obtain ⟨i, hi, hcase⟩ := h
      exact Or.inr ⟨i, List.mem_cons_of_mem j hi, hcase⟩

end foldmax

/-- For a non-empty list, the folded `lo` is attained by some point. -/
theorem fromPoints_lo_att (pts : List Vec3) (hne : pts ≠ []) (i : Fin 3) :
    ∃ p ∈ pts, (Bounds3D.fromPoints pts).lo i = coeQ (p i) := by
  obtain ⟨p1, hp1⟩ := List.exists_mem_of_ne_nil pts hne
  rcases fold_lo_attained pts Bounds3D.sentinel i with h | h
  · exfalso
    have hle : (Bounds3D.fromPoints pts).lo i ≤ coeQ (p1 i) :=
      fold_lo_le_mem pts Bounds3D.sentinel p1 hp1 i
    have h2 : (Bounds3D.fromPoints pts).lo i = ⊤ := h
    rw [h2] at hle
    exact absurd (lt_of_le_of_lt hle (coeQ_lt_top (p1 i))) (lt_irrefl _)
  · exact h

/-- For a non-empty list, the folded `hi` is attained by some point. -/
theorem fromPoints_hi_att (pts : List Vec3) (hne : pts ≠ []) (i : Fin 3) :
    ∃ p ∈ pts, (Bounds3D.fromPoints pts).hi i = coeQ (p i) := by
  obtain ⟨p1, hp1⟩ := List.exists_mem_of_ne_nil pts hne
  rcases fold_hi_attained pts Bounds3D.sentinel i with h | h
  · exfalso
    have hge : coeQ (p1 i) ≤ (Bounds3D.fromPoints pts).hi i :=
      fold_hi_ge_mem pts Bounds3D.sentinel p1 hp1 i
    have h2 : (Bounds3D.fromPoints pts).hi i = ⊥ := h
    rw [h2] at hge
    exact absurd (lt_of_lt_of_le (bot_lt_coeQ (p1 i)) hge) (lt_irrefl _)
  · exact h

/-- For a non-empty point list, `maxBoundValue ∘ fromPoints` is exactly the
maximum absolute coordinate: it is finite, attained at some point/axis, and
dominates `|p i|` for every point and axis. -/
theorem maxBoundValue_spec (pts : List Vec3) (hne : pts ≠ []) :
    ∃ p0 ∈ pts, ∃ i0 : Fin 3,
      maxBoundValue (Bounds3D.fromPoints pts) = coeQ |p0 i0|
      ∧ ∀ p ∈ pts, ∀ i : Fin 3, |p i| ≤ |p0 i0| := by
  have hub : ∀ p ∈ pts, ∀ i : Fin 3,
      coeQ |p i| ≤ maxBoundValue (Bounds3D.fromPoints pts) := by
    intro p hp i
    obtain ⟨pl, hpl, hel⟩ := fromPoints_lo_att pts hne i
    obtain ⟨ph, hph, heh⟩ := fromPoints_hi_att pts hne i
    have h1 : pl i ≤ p i :=
      (coeQ_le_coeQ _ _).mp (hel ▸ fold_lo_le_mem pts Bounds3D.sentinel p hp i)
    have h2 : p i ≤ ph i :=
      (coeQ_le_coeQ _ _).mp (heh ▸ fold_hi_ge_mem pts Bounds3D.sentinel p hp i)
    have habs : |p i| ≤ max |pl i| |ph i| := abs_le_max_abs_abs h1 h2
    have hm := foldmax_ge_mem
      (fun j => eabs ((Bounds3D.fromPoints pts).lo j))
      (fun j => eabs ((Bounds3D.fromPoints pts).hi j))
      (List.finRange 3) ⊥ i (List.mem_finRange i)
    have hlo_le_fold :
        eabs ((Bounds3D.fromPoints pts).lo i)
          ≤ maxBoundValue (Bounds3D.fromPoints pts) := hm.1
    have hhi_le_fold :
        eabs ((Bounds3D.fromPoints pts).hi i)
          ≤ maxBoundValue (Bounds3D.fromPoints pts) := hm.2
    rw [hel, eabs_coeQ] at hlo_le_fold
    rw [heh, eabs_coeQ] at hhi_le_fold
    calc coeQ |p i| ≤ coeQ (max |pl i| |ph i|) := (coeQ_le_coeQ _ _).mpr habs
      _ = max (coeQ |pl i|) (coeQ |ph i|) := (coeQ_max _ _).symm
      _ ≤ maxBoundValue (Bounds3D.fromPoints pts) :=
          max_le hlo_le_fold hhi_le_fold
  rcases foldmax_attained
      (fun j => eabs ((Bounds3D.fromPoints pts).lo j))
      (fun j => eabs ((Bounds3D.fromPoints pts).hi j))
      (List.finRange 3) ⊥ with h | h
  · exfalso
    obtain ⟨p1, hp1⟩ := List.exists_mem_of_ne_nil pts hne
    have hb : maxBoundValue (Bounds3D.fromPoints pts) = ⊥ := h
    have := hub p1 hp1 0
    rw [hb] at this
    exact absurd (lt_of_lt_of_le (bot_lt_coeQ _) this) (lt_irrefl _)
  · obtain ⟨i0, _, hcase⟩ := h
    rcases hcase with hl | hh
    · obtain ⟨pl, hpl, hel⟩ := fromPoints_lo_att pts hne i0
      have hmb : maxBoundValue (Bounds3D.fromPoints pts) = coeQ |pl i0| := by
        have h' : maxBoundValue (Bounds3D.fromPoints pts)
            = eabs ((Bounds3D.fromPoints pts).lo i0) := hl
        rw [h', hel, eabs_coeQ]
      refine ⟨pl, hpl, i0, hmb, ?_⟩
      intro p hp i
      have := hub p hp i
      rw [hmb] at this
      exact (coeQ_le_coeQ _ _).mp this
    · obtain ⟨ph, hph, heh⟩ := fromPoints_hi_att pts hne i0
      have hmb : maxBoundValue (Bounds3D.fromPoints pts) = coeQ |ph i0| := by
        have h' : maxBoundValue (Bounds3D.fromPoints pts)
            = eabs ((Bounds3D.fromPoints pts).hi i0) := hh
        rw [h', heh, eabs_coeQ]
      refine ⟨ph, hph, i0, hmb, ?_⟩
      intro p hp i
      have := hub p hp i
      rw [hmb] at this
      exact (coeQ_le_coeQ _ _).mp this

/-- Every index of `Fin 3` is 0, 1 or 2. -/
theorem fin3_cases (i : Fin 3) : i = 0 ∨ i = 1 ∨ i = 2 := by
  rcases i with ⟨iv, hlt⟩
  interval_cases iv
  · exact Or.inl rfl
  · exact Or.inr (Or.inl rfl)
  · exact Or.inr (Or.inr rfl)

/-- C3 counterexample.  (a) The part_000 variant cited by the claim, applied
to the single point `(1,2,3)`: `maxBoundValue = 3`, `scaleFactor = 1/3`, but
the output point is `(1/3, 2/3, 2/3)` — its z component is `pt[1]·s`, not
`pt[2]·s` — so every output coordinate has absolute value `< 1` (maximum
`2/3`, not 1) and the output is not the input scaled by any single scalar.
(b) The index.html version applied to `[(0,0,0)]` (a non-empty list of
finite points): `maxBoundValue = 0`, and the output coordinates are all 0
in this exact model (JS: `scaleFactor = 1/0 = Infinity` and
`0 · Infinity = NaN`) — under either semantics no output coordinate has
absolute value 1. -/
theorem normalization_claim_counterexample :
    (∀ p ∈ mapPointsToNormalizedCoordsV0 [Vector3.create 1 2 3],
      p 0 = 1/3 ∧ p 1 = 2/3 ∧ p 2 = 2/3 ∧ ∀ i : Fin 3, |p i| < 1)
    ∧ (¬ ∃ c : ℚ, ∀ p ∈ mapPointsToNormalizedCoordsV0 [Vector3.create 1 2 3],
        ∀ i : Fin 3, p i = Vector3.create 1 2 3 i * c)
    ∧ (∀ p ∈ mapPointsToNormalizedCoords [Vector3.create 0 0 0],
        ∀ i : Fin 3, p i = 0 ∧ |p i| ≠ 1) := by
  have hmax123 :
      maxBoundValue (Bounds3D.fromPoints [Vector3.create 1 2 3]) = coeQ 3 := by
    show maxBoundValue (Bounds3D.step Bounds3D.sentinel (Vector3.create 1 2 3))
      = coeQ 3
    simp [maxBoundValue, List.finRange, Bounds3D.step, Bounds3D.sentinel,
      Vector3.create, eabs, coeQ]
    decide
  have hval : ∀ p ∈ mapPointsToNormalizedCoordsV0 [Vector3.create 1 2 3],
      p 0 = 1/3 ∧ p 1 = 2/3 ∧ p 2 = 2/3 := by
    intro p hp
    simp only [mapPointsToNormalizedCoordsV0, hmax123, invE_coeQ,
      List.map] at hp
    rw [List.mem_singleton] at hp
    subst hp
    norm_num [Vector3.create]
  refine ⟨?_, ?_, ?_⟩
  · intro p hp
    obtain ⟨h0, h1, h2⟩ := hval p hp
    refine ⟨h0, h1, h2, ?_⟩
    intro i
    rcases fin3_cases i with h | h | h
    · rw [h, h0]; norm_num [abs_lt]
    · rw [h, h1]; norm_num [abs_lt]
    · rw [h, h2]; norm_num [abs_lt]
  · rintro ⟨c, hc⟩
    have hne : mapPointsToNormalizedCoordsV0 [Vector3.create 1 2 3] ≠ [] := by
      simp [mapPointsToNormalizedCoordsV0]
    obtain ⟨p, hp⟩ := List.exists_mem_of_ne_nil _ hne
    obtain ⟨h0, _, h2⟩ := hval p hp
    have hc0 := hc p hp 0
    have hc2 := hc p hp 2
    rw [h0] at hc0
    rw [h2] at hc2
    norm_num [Vector3.create] at hc0 hc2
    linarith [hc0, hc2]
  · have hmax0 :
        maxBoundValue (Bounds3D.fromPoints [Vector3.create 0 0 0]) = coeQ 0 := by
      show maxBoundValue (Bounds3D.step Bounds3D.sentinel (Vector3.create 0 0 0))
        = coeQ 0
      simp [maxBoundValue, List.finRange, Bounds3D.step, Bounds3D.sentinel,
        Vector3.create, eabs, coeQ]
    intro p hp i
    simp only [mapPointsToNormalizedCoords, hmax0, invE_coeQ, List.map] at hp
    rw [List.mem_singleton] at hp
    subst hp
    constructor
    · fin_cases i <;> norm_num [Vector3.create]
    · fin_cases i <;> norm_num [Vector3.create]

/-- C3 as amended: for the index.html `mapPointsToNormalizedCoords` (no
`boundingBox` argument) applied to a non-empty list of points at least one
of whose coordinates is nonzero, the output is the input scaled coordinate-
wise by the single positive scalar `1 / maxBoundValue`, every output
coordinate has absolute value `≤ 1`, and the maximum absolute output
coordinate equals 1 exactly.  (The claim as stated fails for the part_000
variant — its z output reads `pt[1]` — and for the all-zero point list,
where the scale factor is a division by zero; see the counterexample.) -/
theorem normalization_uniform_scale_amended (pts : List Vec3)
    (hne : pts ≠ []) (hnz : ∃ p ∈ pts, ∃ i : Fin 3, p i ≠ 0) :
    (∃ c : ℚ, 0 < c
      ∧ mapPointsToNormalizedCoords pts = pts.map (fun p => fun i => p i * c))
    ∧ (∀ p ∈ mapPointsToNormalizedCoords pts, ∀ i : Fin 3, |p i| ≤ 1)
    ∧ (∃ p ∈ mapPointsToNormalizedCoords pts, ∃ i : Fin 3, |p i| = 1) := by
  obtain ⟨p0, hp0, i0, hmax, hbound⟩ := maxBoundValue_spec pts hne
  have hMpos : 0 < |p0 i0| := by
    obtain ⟨pz, hpz, iz, hz⟩ := hnz
    exact lt_of_lt_of_le (abs_pos.mpr hz) (hbound pz hpz iz)
  have hmapeq : mapPointsToNormalizedCoords pts
      = pts.map (fun p => fun i => p i * (1 / |p0 i0|)) := by
    simp only [mapPointsToNormalizedCoords, hmax, invE_coeQ]
  refine ⟨⟨1 / |p0 i0|, by positivity, hmapeq⟩, ?_, ?_⟩
  · intro p hp i
    rw [hmapeq] at hp
    obtain ⟨q, hq, hqe⟩ := List.mem_map.mp hp
    rw [← hqe]
    rw [abs_mul, abs_of_pos (by positivity : (0:ℚ) < 1 / |p0 i0|), mul_one_div]
    exact (div_le_one hMpos).mpr (hbound q hq i)
  · refine ⟨fun i => p0 i * (1 / |p0 i0|), ?_, i0, ?_⟩
    · rw [hmapeq]
      exact List.mem_map.mpr ⟨p0, hp0, rfl⟩
    · rw [abs_mul, abs_of_pos (by positivity : (0:ℚ) < 1 / |p0 i0|),
        mul_one_div, div_self (ne_of_gt hMpos)]

/-- Witness for the amended C3 at the single-point list `[(1,2,3)]`. -/
theorem normalization_uniform_scale_amended_witness :
    (([Vector3.create 1 2 3] : List Vec3) ≠ []
      ∧ (∃ p ∈ [Vector3.create 1 2 3], ∃ i : Fin 3, p i ≠ 0))
    ∧ (∃ c : ℚ, 0 < c
        ∧ mapPointsToNormalizedCoords [Vector3.create 1 2 3]
          = [Vector3.create 1 2 3].map (fun p => fun i => p i * c))
    ∧ (∀ p ∈ mapPointsToNormalizedCoords [Vector3.create 1 2 3],
        ∀ i : Fin 3, |p i| ≤ 1)
    ∧ (∃ p ∈ mapPointsToNormalizedCoords [Vector3.create 1 2 3],
        ∃ i : Fin 3, |p i| = 1) := by
  have hne : ([Vector3.create 1 2 3] : List Vec3) ≠ [] := List.cons_ne_nil _ _
  have hnz : ∃ p ∈ [Vector3.create 1 2 3], ∃ i : Fin 3, p i ≠ 0 :=
    ⟨Vector3.create 1 2 3, List.mem_singleton.mpr rfl, 0,
      by norm_num [Vector3.create]⟩
  obtain ⟨h1, h2, h3⟩ := normalization_uniform_scale_amended
    [Vector3.create 1 2 3] hne hnz
  exact ⟨⟨hne, hnz⟩, h1, h2, h3⟩

/-! ### Space (index.html lines 1294–1505) -/

/-- The state a `Space` owns that feeds `updateViewMatrix`: the canvas
device-pixel size (`ctx.canvas.width/height`), the screen placement in
unit surface fractions, the logical domain, the aspect flag and the
rotation matrix (identity right after construction). -/
structure SpaceArgs where
  cw : ℚ
  ch : ℚ
  screenX : ℚ
  screenY : ℚ
  screenWidth : ℚ
  screenHeight : ℚ
  initialSpaceMin : ℚ
  initialSpaceMax : ℚ
  squareAspect : Bool
  rot : Mat

/-- The derived state written by `updateViewMatrix`: `scale`,
`translation`, forward `matrix` and `inverseMatrix`. -/
structure SpaceDerived where
  scale : Fin 3 → ℚ
  translation : Fin 3 → ℚ
  matrix : Mat
  inverseMatrix : Mat

/-- `minDim` of `updateViewMatrix` (index.html line 1459):
`Math.min(canvas.height * screenHeight, canvas.width * screenWidth)`. -/
def minDim (a : SpaceArgs) : ℚ :=
  min (a.ch * a.screenHeight) (a.cw * a.screenWidth)

/-- `xDim` (index.html line 1460). -/
def xDim (a : SpaceArgs) : ℚ :=
  if a.squareAspect then minDim a else a.cw * a.screenWidth

/-- `yDim` (index.html line 1461). -/
def yDim (a : SpaceArgs) : ℚ :=
  if a.squareAspect then minDim a else a.ch * a.screenHeight

/-- `zDim` (index.html line 1462). -/
def zDim (a : SpaceArgs) : ℚ := minDim a

/-- `spaceDif` (index.html line 1463). -/
def spaceDif (a : SpaceArgs) : ℚ :=
  a.initialSpaceMax - a.initialSpaceMin

/-- `spaceOffset` (index.html line 1464): `ilerp(spaceMin, spaceMax, 0)`. -/
def spaceOffset (a : SpaceArgs) : ℚ :=
  ilerp a.initialSpaceMin a.initialSpaceMax 0

/-- `this.scale[0]` (index.html line 1467). -/
def scale0 (a : SpaceArgs) : ℚ := xDim a / spaceDif a

/-- `this.scale[1]` (index.html line 1468, Y inverted). -/
def scale1 (a : SpaceArgs) : ℚ := -(yDim a / spaceDif a)

/-- `this.scale[2]` (index.html line 1469). -/
def scale2 (a : SpaceArgs) : ℚ := -(zDim a / spaceDif a)

/-- `this.translation[0]` (index.html line 1470):
`canvas.width * screenWidth * spaceOffset + left`. -/
def transl0 (a : SpaceArgs) : ℚ :=
  a.cw * a.screenWidth * spaceOffset a + a.cw * a.screenX

/-- `this.translation[1]` (index.html line 1471):
`canvas.height - (canvas.height * screenHeight * spaceOffset + top)`. -/
def transl1 (a : SpaceArgs) : ℚ :=
  a.ch - (a.ch * a.screenHeight * spaceOffset a + a.ch * a.screenY)

/-- `this.translation[2]` (index.html line 1472). -/
def transl2 (a : SpaceArgs) : ℚ := 0

/-- The scale+translate matrix written by `this.matrix.setValues`
(index.html lines 1473–1477). -/
def scaleTranslate (s0 s1 s2 t0 t1 t2 : ℚ) : Mat :=
  Matrix4x4.create
    s0 0 0 t0
    0 s1 0 t1
    0 0 s2 t2
    0 0 0 1

/-- The analytic inverse built by `updateViewMatrix` (index.html lines
1481–1504): reciprocal scales `iSx, iSy, iSz`, the rows `X`, `Y`, `Z` read
from the rotation matrix's columns (`rot[0], rot[1], rot[2]` are rows 0–2
of column 0, `rot[4..6]` column 1, `rot[8..10]` column 2), and the fourth
column from the negated translation dotted with each row. -/
def analyticInverse (s0 s1 s2 t0 t1 t2 : ℚ) (rot : Mat) : Mat :=
  let X : Vec3 := ![(1/s0) * rot 0 0, (1/s1) * rot 1 0, (1/s2) * rot 2 0]
  let Y : Vec3 := ![(1/s0) * rot 0 1, (1/s1) * rot 1 1, (1/s2) * rot 2 1]
  let Z : Vec3 := ![(1/s0) * rot 0 2, (1/s1) * rot 1 2, (1/s2) * rot 2 2]
  let iT : Vec3 := ![-t0, -t1, -t2]
  Matrix4x4.create
    (X 0) (X 1) (X 2) (Vector3.dotProduct iT X)
    (Y 0) (Y 1) (Y 2) (Vector3.dotProduct iT Y)
    (Z 0) (Z 1) (Z 2) (Vector3.dotProduct iT Z)
    0 0 0 1

/-- Source `Space.updateViewMatrix` (index.html lines 1452–1505):
axis scales `(xDim/spaceDif, -(yDim/spaceDif), -(zDim/spaceDif))`,
translation from the screen rectangle, forward matrix
`= (scale+translate matrix) · rotationMatrix` (the self-aliased
`Matrix4x4.multiply(this.matrix, this.rotationMatrix, this.matrix)`,
whose value is the plain product — proved aliasing-safe separately), and
the analytic inverse recomputed from the same scales, rotation and
translation in the same call. -/
def updateViewMatrix (a : SpaceArgs) : SpaceDerived :=
  ⟨![scale0 a, scale1 a, scale2 a],
   ![transl0 a, transl1 a, transl2 a],
   Matrix4x4.multiply
     (scaleTranslate (scale0 a) (scale1 a) (scale2 a)
       (transl0 a) (transl1 a) (transl2 a)) a.rot,
   analyticInverse (scale0 a) (scale1 a) (scale2 a)
     (transl0 a) (transl1 a) (transl2 a) a.rot⟩

/-- A constructed `Space`: its argument fields plus the derived matrices. -/
structure Space where
  args : SpaceArgs
  derived : SpaceDerived

/-- Source `Space` constructor (index.html lines 1311–1345): stores the
arguments, initializes `rotationMatrix` to the identity and immediately
calls `updateViewMatrix`.  JS constructors can throw, so the embedding
returns `Except String Space`; the source body contains no validation and
no throw path, so every argument list — including a degenerate domain —
produces `Except.ok`. -/
def mkSpace (cw ch screenX screenY screenWidth screenHeight
    initialSpaceMin initialSpaceMax : ℚ) (squareAspect : Bool) :
    Except String Space :=
  let a : SpaceArgs :=
    ⟨cw, ch, screenX, screenY, screenWidth, screenHeight,
      initialSpaceMin, initialSpaceMax, squareAspect, Matrix4x4.identity⟩
  Except.ok ⟨a, updateViewMatrix a⟩

/-- C6 counterexample: constructing a `Space` with
`spaceMax == spaceMin` (`0 = 0`, full-canvas 800×600 rectangle) is **not**
rejected — the constructor returns `Except.ok` and can never return an
error — contradicting the claim that a degenerate domain is a hard
construction-time error. -/
theorem degenerate_domain_not_rejected :
    (∃ s : Space, mkSpace 800 600 0 0 1 1 0 0 true = Except.ok s)
    ∧ ∀ e : String, mkSpace 800 600 0 0 1 1 0 0 true ≠ Except.error e := by
  constructor
  · exact ⟨_, rfl⟩
  · intro e h
    exact absurd h (by simp [mkSpace])

/-- C6 as amended: the source never rejects a degenerate domain.  For any
arguments with `spaceMin = spaceMax` the constructor succeeds, the scale
divisor `spaceDif = spaceMax - spaceMin` is 0, and the stored axis scales
are the divisions `±dim/0` — silently `±Infinity` (then NaN downstream) in
JS float semantics, 0 in this exact model.  (The spec's rejection is a
recommendation for reimplementations, not a property of this code.) -/
theorem degenerate_domain_amended (cw ch sx sy sw sh smin smax : ℚ)
    (sq : Bool) (h : smin = smax) :
    ∃ s : Space,
      mkSpace cw ch sx sy sw sh smin smax sq = Except.ok s
      ∧ smax - smin = 0
      ∧ s.derived.scale 0 = 0
      ∧ s.derived.scale 1 = 0
      ∧ s.derived.scale 2 = 0 := by
  refine ⟨_, rfl, by rw [h, sub_self], ?_, ?_, ?_⟩ <;>
    simp [updateViewMatrix, scale0, scale1, scale2, spaceDif, h, sub_self,
      div_zero]

/-- Witness for the amended C6 at the degenerate domain `0 = 0` on a
full-canvas 800×600 rectangle. -/
theorem degenerate_domain_amended_witness :
    ((0:ℚ) = 0)
    ∧ ∃ s : Space,
        mkSpace 800 600 0 0 1 1 0 0 true = Except.ok s
        ∧ (0:ℚ) - 0 = 0
        ∧ s.derived.scale 0 = 0
        ∧ s.derived.scale 1 = 0
        ∧ s.derived.scale 2 = 0 :=
  ⟨rfl, degenerate_domain_amended 800 600 0 0 1 1 0 0 true rfl⟩

/-! ### The imperative `Matrix4x4.multiply` with aliasing (index.html
lines 942–958)

The source computes the product into the static scratch matrix
`Matrix4x4.__temp2` (`res`), one entry per loop iteration, and only then
copies `res` into `out` (`Matrix4x4.copy`, one flat index at a time), so
`out` may alias `a` or `b`.  The heap is modelled as `ℕ → Mat`: `ra`,
`rb`, `rout`, `rtemp` are the references held by `a`, `b`, `out` and
`__temp2`; aliasing is reference equality.  `a` and `b` are caller
matrices and `__temp2` is private to the class, so `ra ≠ rtemp`,
`rb ≠ rtemp`, and `out` is required by the claim not to be `__temp2`
(`rout ≠ rtemp`); `rout` may equal `ra` or `rb`. -/

/-- A heap of matrix objects, indexed by reference. -/
def Heap : Type := ℕ → Mat

/-- Write a single entry of the matrix object at reference `r`. -/
def writeCell (h : Heap) (r : ℕ) (i j : Fin 4) (v : ℚ) : Heap :=
  fun r2 =>
    if r2 = r then fun i2 j2 => if i2 = i ∧ j2 = j then v else h r i2 j2
    else h r2

/-- The `(i, j)` iteration order of the multiply loops (index.html lines
947–955): `i` outer, `j` inner. -/
def allPairs : List (Fin 4 × Fin 4) :=
  (List.finRange 4).flatMap (fun i => (List.finRange 4).map (fun j => (i, j)))

/-- The `(row, col)` pairs of `Matrix4x4.copy`'s flat-index loop
(index.html lines 910–918): flat index `r + c*4` running 0,…,15. -/
def copyPairs : List (Fin 4 × Fin 4) :=
  (List.finRange 4).flatMap (fun c => (List.finRange 4).map (fun r => (r, c)))

/-- Every entry is visited by the multiply loops. -/
theorem mem_allPairs : ∀ p : Fin 4 × Fin 4, p ∈ allPairs := by decide

/-- Every entry is visited by the copy loop. -/
theorem mem_copyPairs : ∀ p : Fin 4 × Fin 4, p ∈ copyPairs := by decide

/-- One iteration of the multiply loop body:
`res[i + j*4] = Σ_k a[i + k*4] * b[k + j*4]`, reading `a` and `b` from the
current heap and writing the scratch matrix. -/
def multStep (ra rb rtemp : ℕ) (h : Heap) (ij : Fin 4 × Fin 4) : Heap :=
  writeCell h rtemp ij.1 ij.2 (∑ k : Fin 4, h ra ij.1 k * h rb k ij.2)

/-- One iteration of `Matrix4x4.copy`: `out[i] = res[i]`, reading the
scratch matrix from the current heap. -/
def copyStep (rtemp rout : ℕ) (h : Heap) (ij : Fin 4 × Fin 4) : Heap :=
  writeCell h rout ij.1 ij.2 (h rtemp ij.1 ij.2)

/-- The imperative body of `Matrix4x4.multiply(a, b, out)`: run the
product loops into the scratch matrix, then copy the scratch into `out`. -/
def multiplyProg (ra rb rout rtemp : ℕ) (h : Heap) : Heap :=
  copyPairs.foldl (copyStep rtemp rout) (allPairs.foldl (multStep ra rb rtemp) h)

/-- After the product loops, the scratch matrix holds the product of the
original `a` and `b` at every visited entry, and unvisited entries are
untouched. -/
theorem multFold_temp (ra rb rtemp : ℕ)
    (hra : ra ≠ rtemp) (hrb : rb ≠ rtemp) (ps : List (Fin 4 × Fin 4)) :
    ∀ (h : Heap) (i j : Fin 4),
      (ps.foldl (multStep ra rb rtemp) h) rtemp i j
      = if (i, j) ∈ ps then Matrix4x4.multiply (h ra) (h rb) i j
        else h rtemp i j := by
  induction ps with
  | nil => intro h i j; simp
  | cons p rest ih =>
    intro h i j
    rw [List.foldl_cons, ih (multStep ra rb rtemp h p) i j]
    have hha : multStep ra rb rtemp h p ra = h ra := by
      simp [multStep, writeCell, hra]
    have hhb : multStep ra rb rtemp h p rb = h rb := by
      simp [multStep, writeCell, hrb]
    rw [hha, hhb]
    rcases p with ⟨pi, pj⟩
    by_cases hmem : (i, j) ∈ rest
    · simp [hmem, List.mem_cons]
    · by_cases hp : (i, j) = (pi, pj)
      · obtain ⟨hi, hj⟩ := Prod.mk.injEq i j pi pj ▸ hp
        subst hi
        subst hj
        simp [hmem, List.mem_cons, multStep, writeCell, Matrix4x4.multiply]
      · have hij : ¬ (i = pi ∧ j = pj) := by
          intro hc
          exact hp (Prod.ext hc.1 hc.2)
        simp [hmem, List.mem_cons, hp, multStep, writeCell, hij]

/-- After the copy loop, `out` holds the scratch values at every visited
entry (the scratch is never written by the copy since `rout ≠ rtemp`). -/
theorem copyFold_out (rtemp rout : ℕ) (hto : rout ≠ rtemp)
    (ps : List (Fin 4 × Fin 4)) :
    ∀ (h : Heap) (i j : Fin 4),
      (ps.foldl (copyStep rtemp rout) h) rout i j
      = if (i, j) ∈ ps then h rtemp i j else h rout i j := by
  induction ps with
  | nil => intro h i j; simp
  | cons p rest ih =>
    intro h i j
    rw [List.foldl_cons, ih (copyStep rtemp rout h p) i j]
    have htmp : copyStep rtemp rout h p rtemp = h rtemp := by
      simp [copyStep, writeCell, Ne.symm hto]
    rw [htmp]
    rcases p with ⟨pi, pj⟩
    by_cases hmem : (i, j) ∈ rest
    · simp [hmem, List.mem_cons]
    · by_cases hp : (i, j) = (pi, pj)
      · obtain ⟨hi, hj⟩ := Prod.mk.injEq i j pi pj ▸ hp
        subst hi
        subst hj
        simp [hmem, List.mem_cons, copyStep, writeCell]
      · have hij : ¬ (i = pi ∧ j = pj) := by
          intro hc
          exact hp (Prod.ext hc.1 hc.2)
        simp [hmem, List.mem_cons, hp, copyStep, writeCell, hij]

/-- C10: for all matrices `a`, `b` and any `out` that may alias `a` or `b`
but is not the internal scratch matrix `Matrix4x4.__temp2` (and `a`, `b`
are caller matrices, not the private scratch), the imperative
`Matrix4x4.multiply(a, b, out)` leaves `out` holding exactly the product
of the pre-call values of `a` and `b` — the same value
`Matrix4x4.multiply a b` an allocation-fresh call returns.  `rout` is
unconstrained relative to `ra`/`rb`, so this covers the self-aliased call
`Matrix4x4.multiply(this.matrix, this.rotationMatrix, this.matrix)` in
`updateViewMatrix` (index.html line 1479). -/
theorem multiply_aliasing_safe (ra rb rout rtemp : ℕ)
    (hra : ra ≠ rtemp) (hrb : rb ≠ rtemp) (hro : rout ≠ rtemp) (h : Heap) :
    ∀ i j : Fin 4,
      (multiplyProg ra rb rout rtemp h) rout i j
      = Matrix4x4.multiply (h ra) (h rb) i j := by
  intro i j
  unfold multiplyProg
  rw [copyFold_out rtemp rout hro copyPairs _ i j,
    if_pos (mem_copyPairs (i, j)),
    multFold_temp ra rb rtemp hra hrb allPairs h i j,
    if_pos (mem_allPairs (i, j))]

/-- A concrete heap for the C10 witness: reference 0 holds `a`, reference
1 holds `b`, reference 3 is the scratch. -/
def witnessHeap : Heap :=
  fun r =>
    if r = 0 then
      Matrix4x4.create 1 2 3 4 5 6 7 8 9 10 11 12 0 0 0 1
    else if r = 1 then
      Matrix4x4.create 2 0 0 1 0 3 0 2 0 0 4 3 0 0 0 1
    else Matrix4x4.identity

/-- Witness for C10 with `out` aliasing `a` (`rout = ra = 0`), exactly the
self-aliased shape used by `updateViewMatrix`. -/
theorem multiply_aliasing_safe_witness :
    ((0:ℕ) ≠ 3 ∧ (1:ℕ) ≠ 3 ∧ (0:ℕ) ≠ 3)
    ∧ ∀ i j : Fin 4,
        (multiplyProg 0 1 0 3 witnessHeap) 0 i j
        = Matrix4x4.multiply (witnessHeap 0) (witnessHeap 1) i j :=
  ⟨⟨by decide, by decide, by decide⟩,
   multiply_aliasing_safe 0 1 0 3 (by decide) (by decide) (by decide)
     witnessHeap⟩

/-! ### C1: the forward/inverse round trip of `updateViewMatrix` -/

/-- `r3` at the literal 0. -/
theorem r3_0 : r3 0 = 0 := rfl

/-- `r3` at the literal 1. -/
theorem r3_1 : r3 1 = 1 := rfl

/-- `r3` at the literal 2. -/
theorem r3_2 : r3 2 = 2 := rfl

/-- A `rotationMatrix` that is an orthonormal rotation: an affine matrix
(last column `(0,0,0)ᵀ` above the last row `(0,0,0,1)`) whose 3×3 block
has orthonormal columns. Every matrix produced by the X/Y/Z rotation
constructors and their products has this shape. -/
def isRotationMatrix (m : Mat) : Prop :=
  m 0 3 = 0 ∧ m 1 3 = 0 ∧ m 2 3 = 0
  ∧ m 3 0 = 0 ∧ m 3 1 = 0 ∧ m 3 2 = 0 ∧ m 3 3 = 1
  ∧ m 0 0 * m 0 0 + m 1 0 * m 1 0 + m 2 0 * m 2 0 = 1
  ∧ m 0 1 * m 0 1 + m 1 1 * m 1 1 + m 2 1 * m 2 1 = 1
  ∧ m 0 2 * m 0 2 + m 1 2 * m 1 2 + m 2 2 * m 2 2 = 1
  ∧ m 0 0 * m 0 1 + m 1 0 * m 1 1 + m 2 0 * m 2 1 = 0
  ∧ m 0 0 * m 0 2 + m 1 0 * m 1 2 + m 2 0 * m 2 2 = 0
  ∧ m 0 1 * m 0 2 + m 1 1 * m 1 2 + m 2 1 * m 2 2 = 0

/-- The algebraic heart of the round trip: for any nonzero axis scales,
any translation and any orthonormal rotation, the analytic inverse of
`(scale+translate) · rotation` undoes the forward transform on every
point, coordinate by coordinate. -/
theorem roundtrip_core (s0 s1 s2 t0 t1 t2 : ℚ) (R : Mat)
    (h0 : s0 ≠ 0) (h1 : s1 ≠ 0) (h2 : s2 ≠ 0)
    (hR : isRotationMatrix R) (p : Vec3) (i : Fin 3) :
    Matrix4x4.multiplyVector3 (analyticInverse s0 s1 s2 t0 t1 t2 R)
      (Matrix4x4.multiplyVector3
        (Matrix4x4.multiply (scaleTranslate s0 s1 s2 t0 t1 t2) R) p) i
    = p i := by
  obtain ⟨ha, hb, hc, hd, he, hf, hg, o00, o11, o22, o01, o02, o12⟩ := hR
  have hu0 : s0 * s0⁻¹ = 1 := mul_inv_cancel₀ h0
  have hu1 : s1 * s1⁻¹ = 1 := mul_inv_cancel₀ h1
  have hu2 : s2 * s2⁻¹ = 1 := mul_inv_cancel₀ h2
  rcases fin3_cases i with h | h | h <;> subst h
  · simp [Matrix4x4.multiplyVector3, Matrix4x4.multiply,
      analyticInverse, scaleTranslate, Matrix4x4.create, Vector3.dotProduct,
      r3_0, r3_1, r3_2, Fin.sum_univ_four, ha, hb, hc, hd, he, hf, hg,
      one_div]
    linear_combination
      (R 0 0 * (R 0 0 * p 0 + R 0 1 * p 1 + R 0 2 * p 2)) * hu0
      + (R 1 0 * (R 1 0 * p 0 + R 1 1 * p 1 + R 1 2 * p 2)) * hu1
      + (R 2 0 * (R 2 0 * p 0 + R 2 1 * p 1 + R 2 2 * p 2)) * hu2
      + p 0 * o00 + p 1 * o01 + p 2 * o02
  · simp [Matrix4x4.multiplyVector3, Matrix4x4.multiply,
      analyticInverse, scaleTranslate, Matrix4x4.create, Vector3.dotProduct,
      r3_0, r3_1, r3_2, Fin.sum_univ_four, ha, hb, hc, hd, he, hf, hg,
      one_div]
    linear_combination
      (R 0 1 * (R 0 0 * p 0 + R 0 1 * p 1 + R 0 2 * p 2)) * hu0
      + (R 1 1 * (R 1 0 * p 0 + R 1 1 * p 1 + R 1 2 * p 2)) * hu1
      + (R 2 1 * (R 2 0 * p 0 + R 2 1 * p 1 + R 2 2 * p 2)) * hu2
      + p 0 * o01 + p 1 * o11 + p 2 * o12
  · simp [Matrix4x4.multiplyVector3, Matrix4x4.multiply,
      analyticInverse, scaleTranslate, Matrix4x4.create, Vector3.dotProduct,
      r3_0, r3_1, r3_2, Fin.sum_univ_four, ha, hb, hc, hd, he, hf, hg,
      one_div]
    linear_combination
      (R 0 2 * (R 0 0 * p 0 + R 0 1 * p 1 + R 0 2 * p 2)) * hu0
      + (R 1 2 * (R 1 0 * p 0 + R 1 1 * p 1 + R 1 2 * p 2)) * hu1
      + (R 2 2 * (R 2 0 * p 0 + R 2 1 * p 1 + R 2 2 * p 2)) * hu2
      + p 0 * o02 + p 1 * o12 + p 2 * o22

/-- C1: for every Space whose logical domain is non-degenerate
(`spaceMax ≠ spaceMin`), whose screen rectangle has positive pixel extent,
and whose `rotationMatrix` is an orthonormal rotation, and for every point
`P`, transforming `P` by the forward `matrix` produced by
`updateViewMatrix` and then by the `inverseMatrix` produced by the same
call returns `P` exactly (hence within floating epsilon), for any rotation
and any such screen rectangle.  (The exact-arithmetic statement holds for
every `P`, in particular throughout the logical domain.) -/
theorem space_forward_inverse_roundtrip (a : SpaceArgs)
    (hdom : a.initialSpaceMax ≠ a.initialSpaceMin)
    (hw : 0 < a.cw * a.screenWidth) (hh : 0 < a.ch * a.screenHeight)
    (hrot : isRotationMatrix a.rot) (p : Vec3) :
    ∀ i : Fin 3,
      Matrix4x4.multiplyVector3 (updateViewMatrix a).inverseMatrix
        (Matrix4x4.multiplyVector3 (updateViewMatrix a).matrix p) i
      = p i := by
  intro i
  have hD : spaceDif a ≠ 0 := sub_ne_zero.mpr hdom
  have hmin : 0 < minDim a := lt_min hh hw
  have hx : xDim a ≠ 0 := by
    unfold xDim
    split_ifs
    · exact ne_of_gt hmin
    · exact ne_of_gt hw
  have hy : yDim a ≠ 0 := by
    unfold yDim
    split_ifs
    · exact ne_of_gt hmin
    · exact ne_of_gt hh
  have hz : zDim a ≠ 0 := ne_of_gt hmin
  have hs0 : scale0 a ≠ 0 := div_ne_zero hx hD
  have hs1 : scale1 a ≠ 0 := neg_ne_zero.mpr (div_ne_zero hy hD)
  have hs2 : scale2 a ≠ 0 := neg_ne_zero.mpr (div_ne_zero hz hD)
  exact roundtrip_core (scale0 a) (scale1 a) (scale2 a)
    (transl0 a) (transl1 a) (transl2 a) a.rot hs0 hs1 hs2 hrot p i

/-- Witness for C1: an 800×600 full-canvas square-aspect Space with domain
`[-1, 1]` and a genuine Z rotation with `cos = 3/5`, `sin = 4/5`, at the
point `(1/2, -1/3, 1/4)`. -/
theorem space_forward_inverse_roundtrip_witness :
    ((1:ℚ) ≠ -1 ∧ (0:ℚ) < 800 * 1 ∧ (0:ℚ) < 600 * 1
      ∧ isRotationMatrix (Matrix4x4.fromZRotation (3/5) (4/5)))
    ∧ ∀ i : Fin 3,
        Matrix4x4.multiplyVector3
          (updateViewMatrix
            ⟨800, 600, 0, 0, 1, 1, -1, 1, true,
              Matrix4x4.fromZRotation (3/5) (4/5)⟩).inverseMatrix
          (Matrix4x4.multiplyVector3
            (updateViewMatrix
              ⟨800, 600, 0, 0, 1, 1, -1, 1, true,
                Matrix4x4.fromZRotation (3/5) (4/5)⟩).matrix
            (Vector3.create (1/2) (-1/3) (1/4))) i
        = Vector3.create (1/2) (-1/3) (1/4) i := by
  have hrot : isRotationMatrix (Matrix4x4.fromZRotation (3/5) (4/5)) := by
    norm_num [isRotationMatrix, Matrix4x4.fromZRotation, Matrix4x4.create,
      Matrix.vecHead, Matrix.vecTail]
  exact ⟨⟨by norm_num, by norm_num, by norm_num, hrot⟩,
    space_forward_inverse_roundtrip
      ⟨800, 600, 0, 0, 1, 1, -1, 1, true, Matrix4x4.fromZRotation (3/5) (4/5)⟩
      (by norm_num) (by norm_num) (by norm_num) hrot
      (Vector3.create (1/2) (-1/3) (1/4))⟩

end DF
